import Mathlib

/-!
Shallow embedding of the pkg-config flag classifier of `src/pkgconf/src/lib.rs`
(crate `pkgconf` of the repository): the linker-flag parser `PkgConfigParser::parse`
with its whole-archive region tracking and upgrade-on-duplicate rule, the
static-availability probe `is_static_available`, and the compiler-flag parser
`parse_cflags`.

Modelling conventions:
- Rust `&str`/`String` become Lean `String`; all character-level operations are
  re-implemented structurally over `String.data` so that every definition is
  kernel-executable (`decide`/`rfl` work on concrete inputs).
- `std::path::PathBuf` becomes `RPath`: an absolute-flag plus the list of normal
  components, mirroring Rust's component-wise path view. Rust
  `Path::starts_with` is a component-prefix test with the root directory as a
  leading component; `RPath.startsWith` reproduces that. (`.` components,
  which Rust's component iterator normalizes away, are kept as ordinary
  components here; no claim involves them.)
- The filesystem is passed explicitly as the list of existing file paths
  (`FS`); Rust's `path.exists()` becomes membership in that list.
- `HashSet<String>` becomes a `List String` used only through membership;
  `HashMap<String, usize>` becomes an association list with first-match lookup
  (keys are inserted at most once, so the strategies agree).
- `Vec<LinkerFlag>` with in-place mutation `flags[idx]` becomes `List LinkerFlag`
  with `List.set`. Rust's indexing `&mut flags[idx]` panics when out of bounds;
  the model records such a (never occurring) access by clearing the ghost flag
  `ParseState.ok` instead, and the corresponding safety claim proves `ok` stays
  `true`.
-/

/-! ## Strings: structural re-implementations of the Rust `str` operations used -/

/-- Rust `str::starts_with` (string pattern). -/
def strStarts (s p : String) : Bool := p.data.isPrefixOf s.data

/-- Rust `str::ends_with` (string pattern). -/
def strEnds (s p : String) : Bool := p.data.isSuffixOf s.data

/-- Drop the first `n` characters. -/
def strDrop (s : String) (n : Nat) : String := String.mk (s.data.drop n)

/-- Drop the last `n` characters. -/
def strDropRight (s : String) (n : Nat) : String :=
  String.mk (s.data.take (s.data.length - n))

/-- Rust `str::strip_prefix`: `some` of the remainder when `p` leads `s`. -/
def dropPre (p s : String) : Option String :=
  if strStarts s p then some (strDrop s p.data.length) else none

/-- Rust `str::strip_suffix`: `some` of the front when `p` ends `s`. -/
def dropSuf (p s : String) : Option String :=
  if strEnds s p then some (strDropRight s p.data.length) else none

/-- Whether `needle` occurs contiguously inside `hay` (Rust `str::contains`). -/
def charsHaveSub (needle : List Char) : List Char → Bool
  | [] => needle.isEmpty
  | c :: rest => needle.isPrefixOf (c :: rest) || charsHaveSub needle rest

/-- Rust `str::contains` with a string pattern. -/
def strContains (s pat : String) : Bool := charsHaveSub pat.data s.data

/-- Accumulator-style splitter behind `splitWhitespace`. -/
def wsTokens : List Char → List Char → List (List Char)
  | [], acc => if acc.isEmpty then [] else [acc.reverse]
  | c :: rest, acc =>
    if c.isWhitespace then
      if acc.isEmpty then wsTokens rest [] else acc.reverse :: wsTokens rest []
    else wsTokens rest (c :: acc)

/-- Rust `str::split_whitespace`: whitespace-separated tokens, empties skipped. -/
def splitWhitespace (s : String) : List String :=
  (wsTokens s.data []).map String.mk

/-- Rust `str::split_once`: split at the first occurrence of `c`, if any. -/
def splitOnceChars (c : Char) : List Char → Option (List Char × List Char)
  | [] => none
  | x :: xs =>
    if x = c then some ([], xs)
    else
      match splitOnceChars c xs with
      | some (l, r) => some (x :: l, r)
      | none => none

/-- Rust `str::split_once` on `String`. -/
def splitOnce (s : String) (c : Char) : Option (String × String) :=
  (splitOnceChars c s.data).map (fun p => (String.mk p.1, String.mk p.2))

/-! ## Paths: component-wise model of `std::path::PathBuf` -/

/-- Accumulator-style splitter behind `pathComps`: pieces between `/`, empties
dropped. -/
def compTokens : List Char → List Char → List (List Char)
  | [], acc => if acc.isEmpty then [] else [acc.reverse]
  | c :: rest, acc =>
    if c = '/' then
      if acc.isEmpty then compTokens rest [] else acc.reverse :: compTokens rest []
    else compTokens rest (c :: acc)

/-- The normal components of a path string: the pieces between `/` separators,
empty pieces dropped (Rust's component parsing collapses repeated separators). -/
def pathComps (s : String) : List String :=
  (compTokens s.data []).map String.mk

/-- A path as Rust's component view sees it: whether it is absolute (has a
leading root-directory component) plus its normal components. -/
structure RPath where
  absolute : Bool
  comps : List String
deriving DecidableEq

/-- Rust `PathBuf::from` on a string. -/
def RPath.fromString (s : String) : RPath :=
  ⟨strStarts s "/", pathComps s⟩

/-- Rust `Path::join` with a string argument: an absolute argument replaces the
path, otherwise its components are appended. -/
def RPath.join (p : RPath) (s : String) : RPath :=
  if strStarts s "/" then RPath.fromString s
  else ⟨p.absolute, p.comps ++ pathComps s⟩

/-- Rust `Path::starts_with`: component-wise prefix test, where the root
directory of an absolute path counts as a leading component (so `/usrlocal`
does not start with `/usr`, and a relative base never matches an absolute
path unless the base is empty). -/
def RPath.startsWith (p base : RPath) : Bool :=
  if base.absolute then p.absolute && base.comps.isPrefixOf p.comps
  else if base.comps.isEmpty then true
  else !p.absolute && base.comps.isPrefixOf p.comps

/-- The filesystem, passed explicitly: the list of file paths that exist.
Rust `path.exists()` becomes `fs.contains path`. -/
abbrev FS := List RPath

/-! ## Data model: `LinkKind`, `LinkerFlag`, `CompilerFlag`, `PkgConfigParser` -/

/-- Rust `enum LinkKind`. -/
inductive LinkKind where
  | Default
  | Static
  | WholeArchive
deriving DecidableEq

/-- Rust `enum LinkerFlag`. -/
inductive LinkerFlag where
  | SearchPath : String → LinkerFlag
  | Library : String → LinkKind → LinkerFlag
  | LinkerArg : String → LinkerFlag
deriving DecidableEq

/-- Rust `enum CompilerFlag` (`IncludePath` holds a `PathBuf`). -/
inductive CompilerFlag where
  | IncludePath : RPath → CompilerFlag
  | Define : String → Option String → CompilerFlag
deriving DecidableEq

/-- Rust `struct PkgConfigParser`: the configuration (system roots and the
force-whole-archive name set). -/
structure PkgConfigParser where
  system_roots : List RPath
  force_whole_archive : List String
deriving DecidableEq

/-- Rust `PkgConfigParser::new()`: system roots `["/usr"]`, no forced names. -/
def PkgConfigParser.new : PkgConfigParser :=
  ⟨[RPath.fromString "/usr"], []⟩

/-! ## The static-availability probe -/

/-- Rust `PkgConfigParser::is_static_available`: `lib<name>.a` exists in one of
`dirs` and that directory is not under a system root. -/
def PkgConfigParser.is_static_available
    (self : PkgConfigParser) (fs : FS) (name : String) (dirs : List RPath) : Bool :=
  let libname := "lib" ++ name ++ ".a"
  dirs.any fun dir =>
    let library_exists := fs.contains (dir.join libname)
    let is_system_dir := self.system_roots.any fun sys => dir.startsWith sys
    library_exists && !is_system_dir

/-! ## The linker-flag parser -/

/-- The mutable local state of one `parse` call: the output buffer, the seen
set, the name-to-index table, the whole-archive region flag, and the ghost flag
`ok` (false iff the model performed an indexing Rust would panic on). -/
structure ParseState where
  flags : List LinkerFlag
  seen_libs : List String
  lib_indices : List (String × Nat)
  in_whole_archive_region : Bool
  ok : Bool
deriving DecidableEq

/-- First-match association-list lookup (the `HashMap::get` of the source;
keys are inserted at most once, so first-match agrees with the hash map). -/
def lookupIdx : List (String × Nat) → String → Option Nat
  | [], _ => none
  | (k, v) :: rest, n => if k = n then some v else lookupIdx rest n

/-- Rust `PkgConfigParser::handle_library`: dedup-or-upgrade for a seen name,
availability-driven kind resolution and append for a fresh one. -/
def PkgConfigParser.handle_library
    (self : PkgConfigParser) (fs : FS) (st : ParseState)
    (lib_name : String) (lib_dirs : List RPath) : ParseState :=
  if st.seen_libs.contains lib_name then
    if st.in_whole_archive_region then
      match lookupIdx st.lib_indices lib_name with
      | some idx =>
        match st.flags.get? idx with
        | some (LinkerFlag.Library n k) =>
          if k = LinkKind.Static then
            { st with flags := st.flags.set idx (LinkerFlag.Library n LinkKind.WholeArchive) }
          else st
        | some _ => st
        | none => { st with ok := false }
      | none => st
    else st
  else
    let has_static := self.is_static_available fs lib_name lib_dirs
    let forced_whole_archive := self.force_whole_archive.contains lib_name
    let kind :=
      if (st.in_whole_archive_region || forced_whole_archive) && has_static then
        LinkKind.WholeArchive
      else if has_static then LinkKind.Static
      else LinkKind.Default
    let idx := st.flags.length
    { st with
      flags := st.flags ++ [LinkerFlag.Library lib_name kind],
      seen_libs := lib_name :: st.seen_libs,
      lib_indices := (lib_name, idx) :: st.lib_indices }

/-- Name extraction for an explicit-archive token `-l:<rest>` (Rust:
`rest.strip_prefix("lib").unwrap_or(rest).strip_suffix(".a").unwrap_or(rest)`).
Note the fallback of the suffix strip is `rest` itself, lib prefix included. -/
def archiveName (rest : String) : String :=
  match dropSuf ".a" ((dropPre "lib" rest).getD rest) with
  | some s => s
  | none => rest

/-- Region-marker tracking inside a `-Wl,` token (the first half of the
source's `-Wl,` arm): set the region flag on a begin marker without an end
marker, clear it on an end marker. -/
def wlRegion (st : ParseState) (wl_args : String) : ParseState :=
  if strContains wl_args "--whole-archive" && !strContains wl_args "--no-whole-archive" then
    { st with in_whole_archive_region := true }
  else if strContains wl_args "--no-whole-archive" then
    { st with in_whole_archive_region := false }
  else st

/-- Whole `-Wl,` arm of the source's second-pass loop: region tracking, then
pass-through of the allow-listed linker arguments. -/
def wlStep (st : ParseState) (flag wl_args : String) : ParseState :=
  let st1 := wlRegion st wl_args
  if strContains wl_args "export-dynamic" || strContains wl_args "as-needed" then
    { st1 with flags := st1.flags ++ [LinkerFlag.LinkerArg flag] }
  else st1

/-- One iteration of the second pass of `PkgConfigParser::parse`: classify one
whitespace-separated token against the running state. -/
def PkgConfigParser.processToken
    (self : PkgConfigParser) (fs : FS) (lib_dirs : List RPath)
    (st : ParseState) (flag : String) : ParseState :=
  match dropPre "-L" flag with
  | some path => { st with flags := st.flags ++ [LinkerFlag.SearchPath path] }
  | none =>
    match dropPre "-Wl," flag with
    | some wl_args => wlStep st flag wl_args
    | none =>
      match dropPre "-l:" flag with
      | some rest =>
        self.handle_library fs st (archiveName rest) lib_dirs
      | none =>
        match dropPre "-l" flag with
        | some lib_name => self.handle_library fs st lib_name lib_dirs
        | none =>
          if flag = "-pthread" && !st.seen_libs.contains "pthread" then
            { st with
              flags := st.flags ++ [LinkerFlag.Library "pthread" LinkKind.Default],
              seen_libs := "pthread" :: st.seen_libs }
          else st

/-- The first pass of `PkgConfigParser::parse`: collect every `-L` directory,
in order, before any token is classified. -/
def collectLibDirs (tokens : List String) : List RPath :=
  tokens.filterMap fun flag => (dropPre "-L" flag).map RPath.fromString

/-- The initial parse state. -/
def initState : ParseState := ⟨[], [], [], false, true⟩

/-- Rust `PkgConfigParser::parse`, down to its final state (final output buffer
plus the bookkeeping, kept so that invariants about the pass can be stated). -/
def PkgConfigParser.parseSt (self : PkgConfigParser) (fs : FS) (output : String) : ParseState :=
  let tokens := splitWhitespace output
  let lib_dirs := collectLibDirs tokens
  tokens.foldl (fun st flag => self.processToken fs lib_dirs st flag) initState

/-- Rust `PkgConfigParser::parse`: the returned flag sequence. -/
def PkgConfigParser.parse (self : PkgConfigParser) (fs : FS) (output : String) : List LinkerFlag :=
  (self.parseSt fs output).flags

/-! ## The compiler-flag parser -/

/-- The mutable local state of one `parse_cflags` call. -/
structure CState where
  flags : List CompilerFlag
  seen : List String
deriving DecidableEq

/-- One iteration of the `parse_cflags` loop. -/
def cflagsStep (st : CState) (token : String) : CState :=
  match dropPre "-I" token with
  | some path =>
    if st.seen.contains token then st
    else
      { flags := st.flags ++ [CompilerFlag.IncludePath (RPath.fromString path)],
        seen := token :: st.seen }
  | none =>
    match dropPre "-D" token with
    | some define =>
      if st.seen.contains token then st
      else
        let fl :=
          match splitOnce define '=' with
          | some (key, val) => CompilerFlag.Define key (some val)
          | none => CompilerFlag.Define define none
        { flags := st.flags ++ [fl], seen := token :: st.seen }
    | none => st

/-- Rust `PkgConfigParser::parse_cflags`. -/
def PkgConfigParser.parse_cflags (_self : PkgConfigParser) (output : String) : List CompilerFlag :=
  ((splitWhitespace output).foldl cflagsStep ⟨[], []⟩).flags

/-! ## Spec-side reference definitions -/

/-- Modelled from the spec's library-resolution rule for a fresh name: retain
all symbols when the name is policy-forced or the region flag is true and a
static archive is available; else static when available; else dynamic. -/
def specResolveKind (forced region avail : Bool) : LinkKind :=
  if (forced || region) && avail then LinkKind.WholeArchive
  else if avail then LinkKind.Static
  else LinkKind.Default

/-! ## Helper lemmas -/

theorem specResolveKind_eq_code (r f a : Bool) :
    (if (r || f) && a then LinkKind.WholeArchive
     else if a then LinkKind.Static else LinkKind.Default) = specResolveKind f r a := by
  cases r <;> cases f <;> cases a <;> rfl

/-- Folding the second pass over a token list from an arbitrary state. -/
def foldTokens (self : PkgConfigParser) (fs : FS) (lib_dirs : List RPath)
    (st : ParseState) (toks : List String) : ParseState :=
  toks.foldl (fun s t => self.processToken fs lib_dirs s t) st

theorem parseSt_eq_foldTokens (self : PkgConfigParser) (fs : FS) (output : String) :
    self.parseSt fs output =
      foldTokens self fs (collectLibDirs (splitWhitespace output)) initState
        (splitWhitespace output) := rfl

theorem strEnds_of_strEnds_strDrop (s : String) (n : Nat) (p : String)
    (h : strEnds (strDrop s n) p = true) : strEnds s p = true := by
  unfold strEnds strDrop at *
  have h' : p.data <:+ s.data.drop n := by
    simpa using h
  have : p.data <:+ s.data := h'.trans (List.drop_suffix n s.data)
  simpa using this

/-! ## Claim C1 -/

/-- C1 counterexample: on the exact input
`"-lfoo -Wl,--whole-archive -l:libfoo.a -Wl,--no-whole-archive"`, with a
filesystem holding `/opt/libfoo.a` (so `libfoo.a` exists, and `/opt` is not
under the configured system root `/usr`), `parse` returns
`[Library(foo, Default)]`, not `[Library(foo, WholeArchive)]`: the probe only
searches `-L` directories and the input carries none. -/
theorem parse_c1_scenario_gives_default :
    PkgConfigParser.new.parse [RPath.fromString "/opt/libfoo.a"]
        "-lfoo -Wl,--whole-archive -l:libfoo.a -Wl,--no-whole-archive"
      = [LinkerFlag.Library "foo" LinkKind.Default]
    ∧ PkgConfigParser.new.parse [RPath.fromString "/opt/libfoo.a"]
        "-lfoo -Wl,--whole-archive -l:libfoo.a -Wl,--no-whole-archive"
      ≠ [LinkerFlag.Library "foo" LinkKind.WholeArchive]
    ∧ ([RPath.fromString "/opt/libfoo.a"] : FS).contains
        ((RPath.fromString "/opt").join "libfoo.a") = true
    ∧ RPath.startsWith (RPath.fromString "/opt") (RPath.fromString "/usr") = false := by
  refine ⟨by decide, by decide, by decide, by decide⟩

/-- C1 (amended): the scenario holds once the input also carries the `-L`
token naming the directory that holds `libfoo.a` (which the claim's
premise "libfoo.a is available" requires, since availability is probed only
in the `-L` directories): for input
`"-L/opt -lfoo -Wl,--whole-archive -l:libfoo.a -Wl,--no-whole-archive"` with
`/opt/libfoo.a` on disk and `/opt` not under a system root, `parse` returns
`[SearchPath(/opt), Library(foo, WholeArchive)]` — the plain mention and the
explicit-archive mention merge into a single entry, upgraded. -/
theorem parse_c1_amended_upgrade_merges :
    PkgConfigParser.new.parse [RPath.fromString "/opt/libfoo.a"]
        "-L/opt -lfoo -Wl,--whole-archive -l:libfoo.a -Wl,--no-whole-archive"
      = [LinkerFlag.SearchPath "/opt", LinkerFlag.Library "foo" LinkKind.WholeArchive] := by
  decide

/-! ## Claim C2 -/

/-- C2: for a library name not yet seen, `handle_library` appends exactly one
`Library` entry whose kind is given by the spec's resolution rule:
`WholeArchive` when (the name is forced or the region flag is true) and a
static archive is available; else `Static` when a static archive is
available; else `Default` (dynamic). -/
theorem handle_library_fresh_kind
    (cfg : PkgConfigParser) (fs : FS) (st : ParseState) (name : String)
    (dirs : List RPath) (h : st.seen_libs.contains name = false) :
    (cfg.handle_library fs st name dirs).flags =
      st.flags ++ [LinkerFlag.Library name
        (specResolveKind (cfg.force_whole_archive.contains name)
          st.in_whole_archive_region (cfg.is_static_available fs name dirs))] := by
  unfold PkgConfigParser.handle_library
  rw [h]
  simp only [Bool.false_eq_true, if_false, specResolveKind_eq_code]

/-- C2 witness: a fresh name (`"foo"`, empty state) in a whole-archive region
with its archive present in a non-system `-L` directory resolves to
`WholeArchive`. -/
theorem handle_library_fresh_kind_witness :
    (PkgConfigParser.new.handle_library [RPath.fromString "/opt/libfoo.a"]
        { flags := [], seen_libs := [], lib_indices := [],
          in_whole_archive_region := true, ok := true }
        "foo" [RPath.fromString "/opt"]).flags =
      [] ++ [LinkerFlag.Library "foo"
        (specResolveKind (PkgConfigParser.new.force_whole_archive.contains "foo") true
          (PkgConfigParser.new.is_static_available [RPath.fromString "/opt/libfoo.a"]
            "foo" [RPath.fromString "/opt"]))] :=
  handle_library_fresh_kind PkgConfigParser.new [RPath.fromString "/opt/libfoo.a"]
    { flags := [], seen_libs := [], lib_indices := [],
      in_whole_archive_region := true, ok := true }
    "foo" [RPath.fromString "/opt"] (by decide)

/-! ## Claim C6 -/

/-- C6: the static-availability probe returns true iff some directory of the
candidate list holds the file `lib<name>.a` directly and is neither equal to
nor nested under any configured system root; and the containment test is by
path components, so `/usrlocal` does not count as contained in `/usr`
(illustrated both through the probe and through the raw `startsWith` test). -/
theorem is_static_available_iff :
    (∀ (cfg : PkgConfigParser) (fs : FS) (name : String) (dirs : List RPath),
      cfg.is_static_available fs name dirs = true ↔
        ∃ dir ∈ dirs, fs.contains (dir.join ("lib" ++ name ++ ".a")) = true ∧
          ∀ sys ∈ cfg.system_roots, dir.startsWith sys = false)
    ∧ PkgConfigParser.new.is_static_available [RPath.fromString "/usrlocal/libfoo.a"]
        "foo" [RPath.fromString "/usrlocal"] = true
    ∧ RPath.startsWith (RPath.fromString "/usrlocal") (RPath.fromString "/usr") = false := by
  refine ⟨?_, by decide, by decide⟩
  intro cfg fs name dirs
  unfold PkgConfigParser.is_static_available
  simp only [List.any_eq_true, Bool.and_eq_true, Bool.not_eq_true']
  constructor
  · rintro ⟨dir, hmem, hex, hsys⟩
    refine ⟨dir, hmem, hex, ?_⟩
    intro sys hs
    simpa using List.any_eq_false.mp hsys sys hs
  · rintro ⟨dir, hmem, hex, hall⟩
    refine ⟨dir, hmem, hex, ?_⟩
    apply List.any_eq_false.mpr
    intro sys hs
    simp [hall sys hs]

/-! ## Claim C7 -/

/-- C7: the `-L` directory list is collected over the whole input before any
probing, so a `-l` token that precedes its `-L` token still resolves against
that directory: with `/opt/x/libfoo.a` on disk, both `"-lfoo -L/opt/x"` and
`"-L/opt/x -lfoo"` resolve `foo` to `Static` (the entries only change their
relative order). -/
theorem parse_prepass_order_independent :
    PkgConfigParser.new.parse [RPath.fromString "/opt/x/libfoo.a"] "-lfoo -L/opt/x"
      = [LinkerFlag.Library "foo" LinkKind.Static, LinkerFlag.SearchPath "/opt/x"]
    ∧ PkgConfigParser.new.parse [RPath.fromString "/opt/x/libfoo.a"] "-L/opt/x -lfoo"
      = [LinkerFlag.SearchPath "/opt/x", LinkerFlag.Library "foo" LinkKind.Static] := by
  exact ⟨by decide, by decide⟩

/-! ## Claim C8 -/

/-- C8: the compiler-flag classifier maps `-I<path>` to `IncludePath` and
`-D<name>[=<value>]` to `Define` splitting at the first `=`, drops every other
token, and deduplicates on the original token text keeping first occurrences
in order; `-DFOO` and `-DFOO=1` stay distinct; the scenario
`"-I/a -std=c11 -DX -Wall -I/b"` yields exactly
`[IncludePath(/a), Define(X, None), IncludePath(/b)]`. -/
theorem parse_cflags_classification :
    PkgConfigParser.new.parse_cflags "-I/a -std=c11 -DX -Wall -I/b"
      = [CompilerFlag.IncludePath (RPath.fromString "/a"),
         CompilerFlag.Define "X" none,
         CompilerFlag.IncludePath (RPath.fromString "/b")]
    ∧ PkgConfigParser.new.parse_cflags "-DFOO -DFOO=1"
      = [CompilerFlag.Define "FOO" none, CompilerFlag.Define "FOO" (some "1")]
    ∧ PkgConfigParser.new.parse_cflags "-DX=2 -I/a -DX=2 -I/a"
      = [CompilerFlag.Define "X" (some "2"), CompilerFlag.IncludePath (RPath.fromString "/a")]
    ∧ PkgConfigParser.new.parse_cflags "-DA=b=c"
      = [CompilerFlag.Define "A" (some "b=c")] := by
  refine ⟨by decide, by decide, by decide, by decide⟩

/-! ## Claim C10 -/

/-- C10 counterexample: the claim's closing clause ("only when the remainder
both starts with `lib` and ends with `.a` is the bare name extracted") fails:
for the token `-l:foo.a` the remainder `foo.a` does not start with `lib`, yet
the bare name `foo` is still extracted (the `.a` suffix alone is stripped). -/
theorem archiveName_bare_without_lib :
    archiveName "foo.a" = "foo"
    ∧ strStarts "foo.a" "lib" = false
    ∧ PkgConfigParser.new.parse [] "-l:foo.a" = [LinkerFlag.Library "foo" LinkKind.Default] := by
  refine ⟨by decide, by decide, by decide⟩

/-- C10 (amended): for an explicit-archive token `-l:<rest>` whose remainder
does not end in `".a"`, name extraction falls back to the entire remainder
including any `lib` prefix — `-l:libfoo` produces a library named `libfoo`,
not deduplicated against a prior `-lfoo` mention. When the remainder does end
in `".a"`, any leading `lib` and the trailing `.a` are stripped, whether or
not the `lib` prefix is present (`-l:libfoo.a` and `-l:foo.a` both give
`foo`). -/
theorem archiveName_fallback :
    (∀ rest : String, strEnds rest ".a" = false → archiveName rest = rest)
    ∧ archiveName "libfoo" = "libfoo"
    ∧ archiveName "libfoo.a" = "foo"
    ∧ archiveName "foo.a" = "foo"
    ∧ PkgConfigParser.new.parse [] "-lfoo -l:libfoo"
        = [LinkerFlag.Library "foo" LinkKind.Default,
           LinkerFlag.Library "libfoo" LinkKind.Default] := by
  refine ⟨?_, by decide, by decide, by decide, by decide⟩
  intro rest h
  have hmid : strEnds ((dropPre "lib" rest).getD rest) ".a" = false := by
    cases hdp : dropPre "lib" rest with
    | none => simpa using h
    | some m =>
      have hm : m = strDrop rest ("lib".data.length) := by
        unfold dropPre at hdp
        split at hdp
        · exact (Option.some_inj.mp hdp).symm
        · exact absurd hdp (by simp)
      subst hm
      simp only [Option.getD_some]
      cases hse : strEnds (strDrop rest "lib".data.length) ".a" with
      | false => rfl
      | true => exact absurd (strEnds_of_strEnds_strDrop rest _ ".a" hse) (by simp [h])
  unfold archiveName
  simp [dropSuf, hmid]

/-! ## The shape of one second-pass step

Every iteration of the second pass falls into one of six shapes; the
region-tracking invariants of claims C3, C4, C5 and C9 all follow from this
single case analysis. -/

/-- The possible transitions of one `processToken` step: bookkeeping only,
append of a non-library entry, in-place `Static → WholeArchive` upgrade of a
table-indexed entry, fresh library append with the availability-driven kind,
the `-pthread` append, or the (unreachable under the index invariant)
out-of-bounds access. -/
def StepShape (cfg : PkgConfigParser) (fs : FS) (dirs : List RPath)
    (st st' : ParseState) : Prop :=
  (st'.flags = st.flags ∧ st'.seen_libs = st.seen_libs ∧
    st'.lib_indices = st.lib_indices ∧ st'.ok = st.ok)
  ∨ (∃ e, (∀ n k, e ≠ LinkerFlag.Library n k) ∧ st'.flags = st.flags ++ [e] ∧
      st'.seen_libs = st.seen_libs ∧ st'.lib_indices = st.lib_indices ∧ st'.ok = st.ok)
  ∨ (∃ nm idx n, lookupIdx st.lib_indices nm = some idx ∧
      st.flags.get? idx = some (LinkerFlag.Library n LinkKind.Static) ∧
      st'.flags = st.flags.set idx (LinkerFlag.Library n LinkKind.WholeArchive) ∧
      st'.seen_libs = st.seen_libs ∧ st'.lib_indices = st.lib_indices ∧ st'.ok = st.ok)
  ∨ (∃ nm, st.seen_libs.contains nm = false ∧
      st'.flags = st.flags ++ [LinkerFlag.Library nm
        (if (st.in_whole_archive_region || cfg.force_whole_archive.contains nm) &&
            cfg.is_static_available fs nm dirs then LinkKind.WholeArchive
         else if cfg.is_static_available fs nm dirs then LinkKind.Static
         else LinkKind.Default)] ∧
      st'.seen_libs = nm :: st.seen_libs ∧
      st'.lib_indices = (nm, st.flags.length) :: st.lib_indices ∧ st'.ok = st.ok)
  ∨ (st.seen_libs.contains "pthread" = false ∧
      st'.flags = st.flags ++ [LinkerFlag.Library "pthread" LinkKind.Default] ∧
      st'.seen_libs = "pthread" :: st.seen_libs ∧
      st'.lib_indices = st.lib_indices ∧ st'.ok = st.ok)
  ∨ (∃ nm idx, lookupIdx st.lib_indices nm = some idx ∧ st.flags.get? idx = none ∧
      st'.flags = st.flags ∧ st'.seen_libs = st.seen_libs ∧
      st'.lib_indices = st.lib_indices ∧ st'.ok = false)

theorem handle_library_shape (cfg : PkgConfigParser) (fs : FS) (st : ParseState)
    (nm : String) (dirs : List RPath) :
    StepShape cfg fs dirs st (cfg.handle_library fs st nm dirs) := by
  unfold PkgConfigParser.handle_library
  split
  · rename_i hseen
    split
    · rename_i hreg
      split
      · rename_i idx hli
        split
        · rename_i n k hfl
          split
          · rename_i hk
            subst hk
            exact Or.inr (Or.inr (Or.inl ⟨nm, idx, n, hli, hfl, rfl, rfl, rfl, rfl⟩))
          · exact Or.inl ⟨rfl, rfl, rfl, rfl⟩
        · exact Or.inl ⟨rfl, rfl, rfl, rfl⟩
        · rename_i hfl
          exact Or.inr (Or.inr (Or.inr (Or.inr (Or.inr ⟨nm, _, ‹_›, hfl, rfl, rfl, rfl, rfl⟩))))
      · exact Or.inl ⟨rfl, rfl, rfl, rfl⟩
    · exact Or.inl ⟨rfl, rfl, rfl, rfl⟩
  · rename_i hseen
    exact Or.inr (Or.inr (Or.inr (Or.inl
      ⟨nm, by simpa using hseen, rfl, rfl, rfl, rfl⟩)))

theorem wlRegion_flags (st : ParseState) (w : String) : (wlRegion st w).flags = st.flags := by
  unfold wlRegion
  split
  · rfl
  · split
    · rfl
    · rfl

theorem wlRegion_seen (st : ParseState) (w : String) :
    (wlRegion st w).seen_libs = st.seen_libs := by
  unfold wlRegion
  split
  · rfl
  · split
    · rfl
    · rfl

theorem wlRegion_indices (st : ParseState) (w : String) :
    (wlRegion st w).lib_indices = st.lib_indices := by
  unfold wlRegion
  split
  · rfl
  · split
    · rfl
    · rfl

theorem wlRegion_ok (st : ParseState) (w : String) : (wlRegion st w).ok = st.ok := by
  unfold wlRegion
  split
  · rfl
  · split
    · rfl
    · rfl

theorem wlStep_shape (cfg : PkgConfigParser) (fs : FS) (dirs : List RPath)
    (st : ParseState) (t w : String) :
    StepShape cfg fs dirs st (wlStep st t w) := by
  unfold wlStep
  split
  · refine Or.inr (Or.inl ⟨LinkerFlag.LinkerArg t, ?_, ?_, ?_, ?_, ?_⟩)
    · intro n k h
      cases h
    · simp [wlRegion_flags]
    · simp [wlRegion_seen]
    · simp [wlRegion_indices]
    · simp [wlRegion_ok]
  · exact Or.inl ⟨wlRegion_flags st w, wlRegion_seen st w, wlRegion_indices st w, wlRegion_ok st w⟩

theorem processToken_shape (cfg : PkgConfigParser) (fs : FS) (dirs : List RPath)
    (st : ParseState) (t : String) :
    StepShape cfg fs dirs st (cfg.processToken fs dirs st t) := by
  unfold PkgConfigParser.processToken
  split
  · refine Or.inr (Or.inl ⟨LinkerFlag.SearchPath _, ?_, rfl, rfl, rfl, rfl⟩)
    intro n k h
    cases h
  · split
    · exact wlStep_shape cfg fs dirs st t _
    · split
      · exact handle_library_shape cfg fs st _ dirs
      · split
        · exact handle_library_shape cfg fs st _ dirs
        · split
          · rename_i hc
            refine Or.inr (Or.inr (Or.inr (Or.inr (Or.inl ⟨?_, rfl, rfl, rfl, rfl⟩))))
            have h2 := (Bool.and_eq_true _ _).mp hc |>.2
            simpa using h2
          · exact Or.inl ⟨rfl, rfl, rfl, rfl⟩

/-! ## List indexing helpers -/

theorem get?_append_sing {α : Type} {l : List α} {x y : α} {i : Nat}
    (h : l.get? i = some y) : (l ++ [x]).get? i = some y := by
  rcases List.get?_eq_some.mp h with ⟨hlt, _⟩
  rw [List.get?_append hlt]
  exact h

theorem get?_append_sing_cases {α : Type} {l : List α} {x y : α} {i : Nat}
    (h : (l ++ [x]).get? i = some y) : l.get? i = some y ∨ (i = l.length ∧ y = x) := by
  rcases Nat.lt_trichotomy i l.length with hlt | heq | hgt
  · left
    rwa [List.get?_append hlt] at h
  · right
    subst heq
    rw [List.get?_concat_length] at h
    exact ⟨rfl, (Option.some_inj.mp h).symm⟩
  · exfalso
    have hlen : (l ++ [x]).length ≤ i := by
      rw [List.length_append]
      simpa using hgt
    rw [List.get?_eq_none.mpr hlen] at h
    cases h

theorem get?_set_cases {α : Type} {l : List α} {j i : Nat} {a y : α}
    (h : (l.set j a).get? i = some y) : (i = j ∧ y = a) ∨ l.get? i = some y := by
  by_cases hij : i = j
  · subst hij
    rw [List.get?_set_eq] at h
    cases hl : l.get? i with
    | none =>
      rw [hl] at h
      cases h
    | some b =>
      rw [hl] at h
      exact Or.inl ⟨rfl, (Option.some_inj.mp h).symm⟩
  · right
    rwa [List.get?_set_ne a l (fun hji => hij hji.symm)] at h

/-! ## Claim C3: entry evolution -/

theorem stepShape_entry {cfg : PkgConfigParser} {fs : FS} {dirs : List RPath}
    {st st' : ParseState} (hs : StepShape cfg fs dirs st st')
    {i : Nat} {f : LinkerFlag} (hf : st.flags.get? i = some f) :
    ∃ f', st'.flags.get? i = some f' ∧
      (f' = f ∨ ∃ n, f = LinkerFlag.Library n LinkKind.Static ∧
        f' = LinkerFlag.Library n LinkKind.WholeArchive) := by
  rcases hs with ⟨hfl, -, -, -⟩ | ⟨e, -, hfl, -, -, -⟩ |
    ⟨nm, idx, n, -, hidx, hfl, -, -, -⟩ | ⟨nm, -, hfl, -, -, -⟩ |
    ⟨-, hfl, -, -, -⟩ | ⟨nm, idx, -, -, hfl, -, -, -⟩
  · exact ⟨f, by rw [hfl]; exact hf, Or.inl rfl⟩
  · exact ⟨f, by rw [hfl]; exact get?_append_sing hf, Or.inl rfl⟩
  · by_cases hij : i = idx
    · subst hij
      have hfe : f = LinkerFlag.Library n LinkKind.Static := by
        rw [hf] at hidx
        exact Option.some_inj.mp hidx
      refine ⟨LinkerFlag.Library n LinkKind.WholeArchive, ?_, Or.inr ⟨n, hfe, rfl⟩⟩
      rw [hfl, List.get?_set_eq, hidx]
      rfl
    · refine ⟨f, ?_, Or.inl rfl⟩
      rw [hfl, List.get?_set_ne _ _ (fun hji => hij hji.symm)]
      exact hf
  · exact ⟨f, by rw [hfl]; exact get?_append_sing hf, Or.inl rfl⟩
  · exact ⟨f, by rw [hfl]; exact get?_append_sing hf, Or.inl rfl⟩
  · exact ⟨f, by rw [hfl]; exact hf, Or.inl rfl⟩

theorem foldTokens_entry (cfg : PkgConfigParser) (fs : FS) (dirs : List RPath) :
    ∀ (toks : List String) (st : ParseState) (i : Nat) (f : LinkerFlag),
      st.flags.get? i = some f →
      ∃ f', (foldTokens cfg fs dirs st toks).flags.get? i = some f' ∧
        (f' = f ∨ ∃ n, f = LinkerFlag.Library n LinkKind.Static ∧
          f' = LinkerFlag.Library n LinkKind.WholeArchive)
  | [], _, _, f, hf => ⟨f, hf, Or.inl rfl⟩
  | t :: toks, st, i, f, hf => by
    rcases stepShape_entry (processToken_shape cfg fs dirs st t) hf with ⟨f₁, hf₁, h₁⟩
    rcases foldTokens_entry cfg fs dirs toks _ i f₁ hf₁ with ⟨f', hf', h₂⟩
    refine ⟨f', hf', ?_⟩
    rcases h₂ with rfl | ⟨n, hn₁, hn₂⟩
    · exact h₁
    · rcases h₁ with rfl | ⟨n', hn₁', hn₂'⟩
      · exact Or.inr ⟨n, hn₁, hn₂⟩
      · rw [hn₂'] at hn₁
        cases hn₁

/-- C3: during a classification pass (any further token list processed from
any state of the pass), the entry at a fixed output position either stays what
it was or changes exactly from `Library(n, Static)` to
`Library(n, WholeArchive)` for the same name `n`; in particular the reverse
transition never happens, a `WholeArchive` entry stays `WholeArchive`, and a
`Default` (dynamic) entry is never upgraded. -/
theorem parse_upgrade_monotone (cfg : PkgConfigParser) (fs : FS) (dirs : List RPath)
    (st : ParseState) (toks : List String) (i : Nat) (f : LinkerFlag)
    (hf : st.flags.get? i = some f) :
    ∃ f', (foldTokens cfg fs dirs st toks).flags.get? i = some f' ∧
      (f' = f ∨ ∃ n, f = LinkerFlag.Library n LinkKind.Static ∧
        f' = LinkerFlag.Library n LinkKind.WholeArchive) :=
  foldTokens_entry cfg fs dirs toks st i f hf

/-- C3 witness: a `Static` entry for `x`, re-mentioned by `-lx` inside a
whole-archive region, evolves per the monotone relation. -/
theorem parse_upgrade_monotone_witness :
    ∃ f', (foldTokens PkgConfigParser.new [] []
        { flags := [LinkerFlag.Library "x" LinkKind.Static], seen_libs := ["x"],
          lib_indices := [("x", 0)], in_whole_archive_region := true, ok := true }
        ["-lx"]).flags.get? 0 = some f' ∧
      (f' = LinkerFlag.Library "x" LinkKind.Static ∨
        ∃ n, LinkerFlag.Library "x" LinkKind.Static = LinkerFlag.Library n LinkKind.Static ∧
          f' = LinkerFlag.Library n LinkKind.WholeArchive) :=
  parse_upgrade_monotone PkgConfigParser.new [] []
    { flags := [LinkerFlag.Library "x" LinkKind.Static], seen_libs := ["x"],
      lib_indices := [("x", 0)], in_whole_archive_region := true, ok := true }
    ["-lx"] 0 (LinkerFlag.Library "x" LinkKind.Static) (by decide)

/-! ## Claim C4: at most one Library entry per name -/

/-- Whether a flag is a `Library` entry with the given name. -/
def isLibNamed (n : String) : LinkerFlag → Bool
  | LinkerFlag.Library m _ => m = n
  | _ => false

/-- The number of `Library` entries with the given name in an output buffer. -/
def countLib (flags : List LinkerFlag) (n : String) : Nat :=
  (flags.filter (isLibNamed n)).length

theorem countLib_nil (n : String) : countLib [] n = 0 := rfl

theorem countLib_cons (a : LinkerFlag) (l : List LinkerFlag) (n : String) :
    countLib (a :: l) n = (if isLibNamed n a then 1 else 0) + countLib l n := by
  unfold countLib
  rw [List.filter_cons]
  split
  · simp [Nat.add_comm]
  · simp

theorem countLib_append (l₁ l₂ : List LinkerFlag) (n : String) :
    countLib (l₁ ++ l₂) n = countLib l₁ n + countLib l₂ n := by
  unfold countLib
  rw [List.filter_append, List.length_append]

theorem countLib_single_lib (nm : String) (k : LinkKind) (n : String) :
    countLib [LinkerFlag.Library nm k] n = if nm = n then 1 else 0 := by
  rw [countLib_cons, countLib_nil]
  simp [isLibNamed]

theorem countLib_single_nonlib (e : LinkerFlag) (he : ∀ n k, e ≠ LinkerFlag.Library n k)
    (n : String) : countLib [e] n = 0 := by
  cases e with
  | SearchPath p => rfl
  | LinkerArg a => rfl
  | Library m k => exact absurd rfl (he m k)

theorem countLib_set {l : List LinkerFlag} {idx : Nat} {m : String} {k k' : LinkKind}
    (h : l.get? idx = some (LinkerFlag.Library m k)) (n : String) :
    countLib (l.set idx (LinkerFlag.Library m k')) n = countLib l n := by
  induction l generalizing idx with
  | nil => cases h
  | cons a l ih =>
    cases idx with
    | zero =>
      have ha : a = LinkerFlag.Library m k := by simpa using h
      subst ha
      rw [List.set_cons_zero, countLib_cons, countLib_cons]
      simp [isLibNamed]
    | succ j =>
      have h' : l.get? j = some (LinkerFlag.Library m k) := by simpa using h
      rw [List.set_cons_succ, countLib_cons, countLib_cons, ih h']

/-- Invariant of a classification pass: every name has at most one `Library`
entry, and an unseen name has none. -/
def UniqueLibs (st : ParseState) : Prop :=
  ∀ n, countLib st.flags n ≤ 1 ∧
    (st.seen_libs.contains n = false → countLib st.flags n = 0)

theorem stepShape_unique {cfg : PkgConfigParser} {fs : FS} {dirs : List RPath}
    {st st' : ParseState} (hs : StepShape cfg fs dirs st st')
    (h : UniqueLibs st) : UniqueLibs st' := by
  rcases hs with ⟨hfl, hsn, -, -⟩ | ⟨e, he, hfl, hsn, -, -⟩ |
    ⟨nm, idx, n0, -, hidx, hfl, hsn, -, -⟩ | ⟨nm, hnm, hfl, hsn, -, -⟩ |
    ⟨hnm, hfl, hsn, -, -⟩ | ⟨nm, idx, -, -, hfl, hsn, -, -⟩
  · intro n
    rw [hfl, hsn]
    exact h n
  · intro n
    rw [hfl, hsn, countLib_append, countLib_single_nonlib e he]
    simpa using h n
  · intro n
    rw [hfl, hsn, countLib_set hidx]
    exact h n
  · intro n
    rw [hfl, hsn, countLib_append, countLib_single_lib]
    constructor
    · by_cases hn : nm = n
      · subst hn
        rw [(h nm).2 hnm]
        simp
      · rw [if_neg hn]
        simpa using (h n).1
    · intro hc
      rw [List.contains_cons] at hc
      have hc' : (n == nm) = false ∧ st.seen_libs.contains n = false := by
        simpa using hc
      have hnn : nm ≠ n := fun he' => by simp [he'] at hc'
      rw [if_neg hnn, (h n).2 hc'.2]
  · intro n
    rw [hfl, hsn, countLib_append, countLib_single_lib]
    constructor
    · by_cases hn : "pthread" = n
      · subst hn
        rw [(h "pthread").2 hnm]
        simp
      · rw [if_neg hn]
        simpa using (h n).1
    · intro hc
      rw [List.contains_cons] at hc
      have hc' : (n == "pthread") = false ∧ st.seen_libs.contains n = false := by
        simpa using hc
      have hnn : "pthread" ≠ n := fun he' => by simp [he'] at hc'
      rw [if_neg hnn, (h n).2 hc'.2]
  · intro n
    rw [hfl, hsn]
    exact h n

theorem foldTokens_unique (cfg : PkgConfigParser) (fs : FS) (dirs : List RPath) :
    ∀ (toks : List String) (st : ParseState), UniqueLibs st →
      UniqueLibs (foldTokens cfg fs dirs st toks)
  | [], _, h => h
  | t :: toks, st, h =>
    foldTokens_unique cfg fs dirs toks _
      (stepShape_unique (processToken_shape cfg fs dirs st t) h)

/-- C4: for every input text, configuration and filesystem state, the output
of `parse` holds at most one `Library` entry per library name — repeated
mentions (via `-l`, `-l:lib<name>.a` or `-pthread`, in any combination) never
append a second entry for a name. -/
theorem parse_library_entries_unique (cfg : PkgConfigParser) (fs : FS) (output : String)
    (n : String) : countLib (cfg.parse fs output) n ≤ 1 := by
  have hinit : UniqueLibs initState := by
    intro m
    exact ⟨by simp [initState, countLib_nil], fun _ => rfl⟩
  exact (foldTokens_unique cfg fs (collectLibDirs (splitWhitespace output))
    (splitWhitespace output) initState hinit n).1

/-! ## Claim C9: totality and soundness of the name-to-index table -/

/-- Invariant of a classification pass: every index stored in the
name-to-index table addresses a `Library` entry of that very name in the
output buffer. -/
def IndicesSound (st : ParseState) : Prop :=
  ∀ n i, lookupIdx st.lib_indices n = some i →
    ∃ k, st.flags.get? i = some (LinkerFlag.Library n k)

theorem stepShape_sound {cfg : PkgConfigParser} {fs : FS} {dirs : List RPath}
    {st st' : ParseState} (hs : StepShape cfg fs dirs st st')
    (h : IndicesSound st) : IndicesSound st' ∧ st'.ok = st.ok := by
  rcases hs with ⟨hfl, -, hli, hok⟩ | ⟨e, -, hfl, -, hli, hok⟩ |
    ⟨nm, idx, n0, hlk, hidx, hfl, -, hli, hok⟩ | ⟨nm, hnm, hfl, -, hli, hok⟩ |
    ⟨hnm, hfl, -, hli, hok⟩ | ⟨nm, idx, hlk, hnone, hfl, -, hli, hok⟩
  · refine ⟨?_, hok⟩
    intro n i hn
    rw [hli] at hn
    rw [hfl]
    exact h n i hn
  · refine ⟨?_, hok⟩
    intro n i hn
    rw [hli] at hn
    rcases h n i hn with ⟨k, hk⟩
    rw [hfl]
    exact ⟨k, get?_append_sing hk⟩
  · refine ⟨?_, hok⟩
    intro n i hn
    rw [hli] at hn
    rcases h n i hn with ⟨k, hk⟩
    by_cases hii : i = idx
    · subst hii
      rw [hk] at hidx
      have hn0 : n = n0 := by
        have := Option.some_inj.mp hidx
        cases this
        rfl
      subst hn0
      refine ⟨LinkKind.WholeArchive, ?_⟩
      rw [hfl, List.get?_set_eq, hk]
      rfl
    · refine ⟨k, ?_⟩
      rw [hfl, List.get?_set_ne _ _ (fun hji => hii hji.symm)]
      exact hk
  · refine ⟨?_, hok⟩
    intro n i hn
    rw [hli] at hn
    by_cases hnn : nm = n
    · subst hnn
      have hi : i = st.flags.length := by
        have := by simpa [lookupIdx] using hn
        exact this.symm
      subst hi
      rw [hfl]
      exact ⟨_, List.get?_concat_length _ _⟩
    · have hn' : lookupIdx st.lib_indices n = some i := by
        simpa [lookupIdx, hnn] using hn
      rcases h n i hn' with ⟨k, hk⟩
      rw [hfl]
      exact ⟨k, get?_append_sing hk⟩
  · refine ⟨?_, hok⟩
    intro n i hn
    rw [hli] at hn
    rcases h n i hn with ⟨k, hk⟩
    rw [hfl]
    exact ⟨k, get?_append_sing hk⟩
  · exfalso
    rcases h nm idx hlk with ⟨k, hk⟩
    rw [hnone] at hk
    cases hk

theorem foldTokens_sound (cfg : PkgConfigParser) (fs : FS) (dirs : List RPath) :
    ∀ (toks : List String) (st : ParseState), IndicesSound st → st.ok = true →
      IndicesSound (foldTokens cfg fs dirs st toks) ∧
        (foldTokens cfg fs dirs st toks).ok = true
  | [], _, h, hok => ⟨h, hok⟩
  | t :: toks, st, h, hok => by
    rcases stepShape_sound (processToken_shape cfg fs dirs st t) h with ⟨h', hokeq⟩
    exact foldTokens_sound cfg fs dirs toks _ h' (hokeq.trans hok)

/-- C9: `parse` is total — the upgrade path's index lookup is always in
bounds (the model's ghost flag recording a Rust out-of-bounds panic stays
`true` for every input, configuration and filesystem), and every index stored
in the name-to-index table addresses the `Library` entry appended for that
name in the output buffer. -/
theorem parse_total_and_index_sound (cfg : PkgConfigParser) (fs : FS) (output : String) :
    (cfg.parseSt fs output).ok = true ∧
      ∀ n i, lookupIdx (cfg.parseSt fs output).lib_indices n = some i →
        ∃ k, (cfg.parseSt fs output).flags.get? i = some (LinkerFlag.Library n k) := by
  have hinit : IndicesSound initState := by
    intro n i hn
    cases hn
  have hmain := foldTokens_sound cfg fs (collectLibDirs (splitWhitespace output))
    (splitWhitespace output) initState hinit rfl
  exact ⟨hmain.2, hmain.1⟩

/-! ## Claim C5: force_whole_archive -/

/-- C5 counterexample: a name in the `force_whole_archive` set is NOT always
emitted as `WholeArchive` regardless of the filesystem: with `foo` forced but
no static archive on disk (empty filesystem, no `-L` directory), `parse` of
`"-lfoo"` emits `Library(foo, Default)` — the forced flag only takes effect
when a static archive is available. -/
theorem parse_forced_without_archive_default :
    (PkgConfigParser.mk [RPath.fromString "/usr"] ["foo"]).parse [] "-lfoo"
      = [LinkerFlag.Library "foo" LinkKind.Default]
    ∧ (PkgConfigParser.mk [RPath.fromString "/usr"] ["foo"]).force_whole_archive.contains
        "foo" = true := by
  exact ⟨by decide, by decide⟩

theorem stepShape_forced {cfg : PkgConfigParser} {fs : FS} {dirs : List RPath}
    {st st' : ParseState} (hs : StepShape cfg fs dirs st st') (name : String)
    (hforced : cfg.force_whole_archive.contains name = true)
    (havail : cfg.is_static_available fs name dirs = true)
    (hnp : name ≠ "pthread")
    (h : ∀ i k, st.flags.get? i = some (LinkerFlag.Library name k) →
      k = LinkKind.WholeArchive) :
    ∀ i k, st'.flags.get? i = some (LinkerFlag.Library name k) →
      k = LinkKind.WholeArchive := by
  rcases hs with ⟨hfl, -, -, -⟩ | ⟨e, he, hfl, -, -, -⟩ |
    ⟨nm, idx, n0, -, hidx, hfl, -, -, -⟩ | ⟨nm, -, hfl, -, -, -⟩ |
    ⟨-, hfl, -, -, -⟩ | ⟨nm, idx, -, -, hfl, -, -, -⟩
  · intro i k hk
    rw [hfl] at hk
    exact h i k hk
  · intro i k hk
    rw [hfl] at hk
    rcases get?_append_sing_cases hk with hold | ⟨-, hnew⟩
    · exact h i k hold
    · exact absurd hnew.symm (he name k)
  · intro i k hk
    rw [hfl] at hk
    rcases get?_set_cases hk with ⟨-, hnew⟩ | hold
    · cases hnew
      rfl
    · exact h i k hold
  · intro i k hk
    rw [hfl] at hk
    rcases get?_append_sing_cases hk with hold | ⟨-, hnew⟩
    · exact h i k hold
    · have hnm : nm = name := by
        cases hnew
        rfl
      subst hnm
      rw [hforced, havail] at hnew
      have h2 : LinkKind.WholeArchive = k := by
        simpa using (LinkerFlag.Library.injEq _ _ _ _ |>.mp hnew.symm).2
      exact h2.symm
  · intro i k hk
    rw [hfl] at hk
    rcases get?_append_sing_cases hk with hold | ⟨-, hnew⟩
    · exact h i k hold
    · have : name = "pthread" := by
        cases hnew
        rfl
      exact absurd this hnp
  · intro i k hk
    rw [hfl] at hk
    exact h i k hk

theorem foldTokens_forced (cfg : PkgConfigParser) (fs : FS) (dirs : List RPath)
    (name : String) (hforced : cfg.force_whole_archive.contains name = true)
    (havail : cfg.is_static_available fs name dirs = true) (hnp : name ≠ "pthread") :
    ∀ (toks : List String) (st : ParseState),
      (∀ i k, st.flags.get? i = some (LinkerFlag.Library name k) →
        k = LinkKind.WholeArchive) →
      ∀ i k, (foldTokens cfg fs dirs st toks).flags.get? i =
        some (LinkerFlag.Library name k) → k = LinkKind.WholeArchive
  | [], _, h => h
  | t :: toks, st, h =>
    foldTokens_forced cfg fs dirs name hforced havail hnp toks _
      (stepShape_forced (processToken_shape cfg fs dirs st t) name hforced havail hnp h)

/-- C5 (amended): for a name in the `force_whole_archive` set, a `Library`
entry emitted by `parse` is `WholeArchive` regardless of the region markers in
the input, provided a static archive for it is available in the input's
(pre-collected) `-L` directories outside the system roots — without an
available archive the entry is `Default` — and the name is not introduced by
the literal `-pthread` token (which bypasses the forced set). -/
theorem parse_forced_whole_archive (cfg : PkgConfigParser) (fs : FS) (output : String)
    (name : String) (hforced : cfg.force_whole_archive.contains name = true)
    (havail : cfg.is_static_available fs name
      (collectLibDirs (splitWhitespace output)) = true)
    (hnp : name ≠ "pthread") (i : Nat) (k : LinkKind)
    (hk : (cfg.parse fs output).get? i = some (LinkerFlag.Library name k)) :
    k = LinkKind.WholeArchive := by
  refine foldTokens_forced cfg fs (collectLibDirs (splitWhitespace output)) name hforced
    havail hnp (splitWhitespace output) initState ?_ i k hk
  intro i' k' hk'
  cases hk'

/-- C5 witness: with `foo` forced, `/opt/libfoo.a` on disk and input
`"-L/opt -lfoo"` (no whole-archive region markers at all), the emitted entry
for `foo` is `WholeArchive`. -/
theorem parse_forced_whole_archive_witness : LinkKind.WholeArchive = LinkKind.WholeArchive :=
  parse_forced_whole_archive (PkgConfigParser.mk [RPath.fromString "/usr"] ["foo"])
    [RPath.fromString "/opt/libfoo.a"] "-L/opt -lfoo" "foo" (by decide) (by decide)
    (by decide) 1 LinkKind.WholeArchive (by decide)
